import Mathlib

set_option linter.unusedVariables false

/-!
Verification development for the bronze-layer frontier crawlers of the
semantic-web-football-kg repository (`scripts/bronze_crawl_wiki.py` and
`scripts/bronze_crawl_web.py`).

The two crawler scripts are shallowly embedded: pure Python helpers become
Lean functions on `String`/`List`, the BFS `run` loops become explicit
step functions on a state record driven by fuel, and all network effects
(`requests` calls) are abstracted into environment records of oracle
functions so that each claim can be settled for every possible sequence of
network outcomes.  Ghost fields (`fetched`, `fetchStarts`, `pushedLog`)
record observable events of a run (which identities reached the fetch call,
at what clock value, and which identities were appended to the frontier)
without influencing control flow.
-/

namespace Crawl

/-- Characters strictly before the first occurrence of `c`
(the list analogue of Python's `s.split(c)[0]`). -/
def takeUntil (c : Char) : List Char → List Char
  | [] => []
  | x :: xs => if x = c then [] else x :: takeUntil c xs

theorem takeUntil_not_mem (c : Char) : ∀ l : List Char, c ∉ takeUntil c l := by
  intro l
  induction l with
  | nil => simp [takeUntil]
  | cons x xs ih =>
    by_cases hx : x = c
    · simp [takeUntil, hx]
    · simp [takeUntil, hx]
      exact ⟨fun h => hx h.symm, ih⟩

theorem takeUntil_append_of_forall (c : Char) (l₁ l₂ : List Char)
    (h : ∀ x ∈ l₁, x ≠ c) :
    takeUntil c (l₁ ++ l₂) = l₁ ++ takeUntil c l₂ := by
  induction l₁ with
  | nil => simp
  | cons x xs ih =>
    have hx : x ≠ c := h x (by simp)
    simp only [List.cons_append, takeUntil, if_neg hx, List.append_eq]
    rw [ih (fun y hy => h y (by simp [hy]))]

theorem takeUntil_prefix_cons (c : Char) (l₁ l₂ : List Char)
    (h : c ∉ l₁) :
    takeUntil c (l₁ ++ c :: l₂) = l₁ := by
  have := takeUntil_append_of_forall c l₁ (c :: l₂)
    (fun x hx => fun hxc => h (hxc ▸ hx))
  rw [this]
  simp [takeUntil]

theorem takeUntil_decomp (c : Char) :
    ∀ l : List Char, c ∈ l → ∃ l₂, l = takeUntil c l ++ c :: l₂ := by
  intro l
  induction l with
  | nil => simp
  | cons x xs ih =>
    intro hmem
    by_cases hx : x = c
    · exact ⟨xs, by simp [takeUntil, hx]⟩
    · have hx' : c ∈ xs := by
        rcases List.mem_cons.mp hmem with h | h
        · exact absurd h.symm hx
        · exact h
      obtain ⟨l₂, hl₂⟩ := ih hx'
      exact ⟨l₂, by simp [takeUntil, hx]; exact hl₂⟩

/-- Characters accepted inside a URL scheme by `urllib.parse`
(letters, digits, `+`, `-`, `.`). -/
def isSchemeChar (c : Char) : Bool := c.isAlphanum || c == '+' || c == '-' || c == '.'

theorem hash_not_schemeChar : isSchemeChar '#' = false := by decide

theorem colon_not_schemeChar : isSchemeChar ':' = false := by decide

/-- The `scheme` field of Python's `urllib.parse.urlparse`: the lowercased
text before the first `:` when that text is a valid scheme (nonempty, starts
with a letter, only scheme characters), otherwise the empty string. -/
def urlScheme (u : String) : String :=
  let pre := takeUntil ':' u.data
  if u.data.contains ':' && !pre.isEmpty && (pre.headD ' ').isAlpha && pre.all isSchemeChar
  then String.mk (pre.map Char.toLower) else ""

/-- Python's `u.split("#")[0]`: everything strictly before the first `#`. -/
def stripFrag (u : String) : String := String.mk (takeUntil '#' u.data)

theorem stripFrag_no_hash (u : String) : '#' ∉ (stripFrag u).data := by
  show '#' ∉ takeUntil '#' u.data
  exact takeUntil_not_mem '#' u.data

/-- Stripping the fragment does not change a nonempty URL scheme: the scheme
characters all precede the first `:` and `#` is not a scheme character. -/
theorem urlScheme_stripFrag (u : String) (h : urlScheme u ≠ "") :
    urlScheme (stripFrag u) = urlScheme u := by
  have hcond : (u.data.contains ':' && !(takeUntil ':' u.data).isEmpty
      && ((takeUntil ':' u.data).headD ' ').isAlpha
      && (takeUntil ':' u.data).all isSchemeChar) = true := by
    by_contra hc
    apply h
    unfold urlScheme
    simp only []
    rw [if_neg hc]
  have hcontains : u.data.contains ':' = true := by
    simp only [Bool.and_eq_true] at hcond; exact hcond.1.1.1
  have hall : (takeUntil ':' u.data).all isSchemeChar = true := by
    simp only [Bool.and_eq_true] at hcond; exact hcond.2
  have hmem : ':' ∈ u.data := by simpa using hcontains
  obtain ⟨l₂, hl₂⟩ := takeUntil_decomp ':' u.data hmem
  have hnohash : ∀ x ∈ takeUntil ':' u.data, x ≠ '#' := by
    intro x hx hxe
    have := (List.all_eq_true.mp hall) x hx
    rw [hxe] at this
    rw [hash_not_schemeChar] at this
    exact Bool.false_ne_true this
  have hnocolon : ':' ∉ takeUntil ':' u.data := takeUntil_not_mem ':' u.data
  have hstrip : (stripFrag u).data
      = takeUntil ':' u.data ++ ':' :: takeUntil '#' l₂ := by
    show takeUntil '#' u.data = takeUntil ':' u.data ++ ':' :: takeUntil '#' l₂
    conv_lhs => rw [hl₂]
    rw [takeUntil_append_of_forall '#' (takeUntil ':' u.data) (':' :: l₂) hnohash]
    simp [takeUntil]
  have hpre' : takeUntil ':' (stripFrag u).data = takeUntil ':' u.data := by
    rw [hstrip]
    exact takeUntil_prefix_cons ':' (takeUntil ':' u.data) (takeUntil '#' l₂) hnocolon
  have hcontains' : (stripFrag u).data.contains ':' = true := by
    rw [hstrip]
    simp
  unfold urlScheme
  simp only []
  rw [hpre', hcontains', hcontains]

/-- The `netloc` field of `urllib.parse.urlparse`, restricted to the URL
shapes the crawler meets: the text between a leading `//` (after an optional
scheme) and the next `/`, `?` or `#`. -/
def urlNetloc (u : String) : String :=
  let rest : List Char :=
    if urlScheme u ≠ "" then (u.data.dropWhile (· ≠ ':')).drop 1 else u.data
  match rest with
  | '/' :: '/' :: r =>
      String.mk (r.takeWhile (fun c => !(c == '/' || c == '?' || c == '#')))
  | _ => ""

/-- `pre` is a prefix of `s` (character lists). -/
def prefixOfList : List Char → List Char → Bool
  | [], _ => true
  | _ :: _, [] => false
  | a :: as, b :: bs => a == b && prefixOfList as bs

/-- `sub` occurs contiguously inside `s` (character lists). -/
def substringOf (sub : List Char) : List Char → Bool
  | [] => sub.isEmpty
  | x :: t => prefixOfList sub (x :: t) || substringOf sub t

/-- Python's substring test `sub in s`. -/
def pyContains (s sub : String) : Bool :=
  substringOf sub.data s.data

/-- Python's `s.startswith(pre)`. -/
def pyStartsWith (s pre : String) : Bool :=
  prefixOfList pre.data s.data

/-- Python's `str.lower()` (character-wise). -/
def pyLower (s : String) : String :=
  String.mk (s.data.map Char.toLower)

/-- Python's `str.strip()`: remove leading and trailing whitespace. -/
def pyStrip (s : String) : String :=
  String.mk (((s.data.dropWhile Char.isWhitespace).reverse.dropWhile
    Char.isWhitespace).reverse)

/-- Split a character list on a separator character, Python
`str.split(sep)` style: `n` separators yield `n + 1` (possibly empty) parts. -/
def splitOnChar (c : Char) : List Char → List (List Char)
  | [] => [[]]
  | x :: xs =>
    let r := splitOnChar c xs
    if x = c then [] :: r
    else
      match r with
      | [] => [[x]]
      | h :: t => (x :: h) :: t

/-- Python's `line.split("\t")`. -/
def pySplitTab (s : String) : List String :=
  (splitOnChar '\t' s.data).map String.mk

/-- `done.txt` loading shared by both crawlers:
`set(line.strip() for line in f if line.strip())`. -/
def loadDone (lines : List String) : List String :=
  ((lines.map pyStrip).filter (· ≠ "")).dedup

end Crawl

namespace Wiki

/-- `bronze_crawl_wiki.RETRYABLE_STATUS`. -/
def RETRYABLE_STATUS : List Nat := [403, 408, 429, 500, 502, 503, 504, 520, 522]

/-- `bronze_crawl_wiki.PERMANENT_STATUS`. -/
def PERMANENT_STATUS : List Nat := [400, 401, 404, 410]

/-- `bronze_crawl_wiki.FOOTBALL_KEYWORDS`. -/
def FOOTBALL_KEYWORDS : List String :=
  ["bóng đá", "bong da", "fc", "v.league", "vleague", "cup", "futsal",
   "giải vô địch", "đội tuyển", "huấn luyện viên", "sân vận động", "aff",
   "sea games", "cầu thủ"]

/-- `bronze_crawl_wiki.TOPICS` (the seed titles). -/
def TOPICS : List String :=
  ["Đội tuyển bóng đá quốc gia Việt Nam",
   "Cầu thủ bóng đá Việt Nam",
   "Câu lạc bộ bóng đá Việt Nam",
   "Đội tuyển bóng đá nữ quốc gia Việt Nam",
   "Đội tuyển bóng đá U23 Việt Nam",
   "V.League 1",
   "Cúp Quốc gia Việt Nam",
   "AFF Cup",
   "SEA Games bóng đá",
   "Giải vô địch bóng đá Đông Nam Á",
   "Hà Nội FC",
   "Hoàng Anh Gia Lai",
   "Công Phượng",
   "Nguyễn Quang Hải",
   "Lê Công Vinh",
   "Nguyễn Công Phượng",
   "Lương Xuân Trường",
   "Bóng đá trẻ Việt Nam",
   "Bóng đá nữ Việt Nam",
   "Futsal Việt Nam",
   "Lịch sử bóng đá Việt Nam",
   "Liên đoàn bóng đá Việt Nam",
   "Sân vận động Mỹ Đình",
   "Huấn luyện viên Park Hang-seo",
   "Giải hạng Nhất Quốc gia Việt Nam"]

/-- `is_footballish(title)`: case-insensitive keyword test. -/
def is_footballish (title : String) : Bool :=
  FOOTBALL_KEYWORDS.any (fun k => Crawl.pyContains (Crawl.pyLower title) k)

/-- `load_permanent_errors()`, applied to the lines of `error.txt`:
skip blank lines, split on tabs, and keep `parts[0]` exactly when
`len(parts) >= 3` and the `retryable` field `parts[2]` equals `"0"`. -/
def load_permanent_errors (lines : List String) : List String :=
  lines.filterMap (fun line =>
    let l := Crawl.pyStrip line
    if l = "" then none
    else
      let parts := Crawl.pySplitTab l
      if 3 ≤ parts.length then
        if parts.getD 2 "" = "0" then some (parts.headD "") else none
      else none)

/-- The three `--mode` values of the wiki crawler. -/
inductive Mode where
  | extract
  | wikitext
  | html

/-- Outcome of the main `SESSION.get(WIKI_API, ...)` call inside
`fetch_page`: either a transport exception or an HTTP response (status plus
an abstract JSON body). -/
inductive MainResp where
  | exc
  | resp (status : Nat) (body : String)

/-- Outcome of the fallback `SESSION.get(REST_SUMMARY + quote(title))` call:
either a transport exception or a response carrying the summary fields the
code extracts (`title`, `extract`, `content_urls`, `thumbnail`). -/
inductive RestResp where
  | exc
  | resp (status : Nat) (title extract contentUrls thumbnail : String)

/-- The payload `fetch_page` returns, one constructor per `return` shape. -/
inductive WikiData where
  | wikitextData (query : String)
  | htmlData (parse : String)
  | extractFull (query : String)
  | extractSummary (title extract contentUrls thumbnail : String)

/-- An exception escaping `fetch_page` as seen by `run`'s handlers:
`requests.HTTPError` carrying the response's status code (`None` when the
error has no response, mapped to `0` by the caller), or any other exception. -/
inductive FetchFailure where
  | httpError (status : Option Nat)
  | otherExc

/-- Network oracle for one wiki run: the responses every `requests` call
would produce, plus an abstract duration for the work done on each frontier
fetch attempt (everything between the attempt's start and the `finally`
sleep). -/
structure WikiEnv where
  main : String → MainResp
  rest : String → RestResp
  links : String → Except Unit (List String)
  dur : Nat → Nat

/-- Configuration of `bronze_crawl_wiki.run` (delay in abstract clock ticks). -/
structure WikiCfg where
  maxDepth : Nat
  maxPages : Nat
  delay : Nat
  full : Bool
  mode : Mode

/-- `fetch_page(title, mode=..., full=...)`.  In `extract` mode a `403`/`429`
status on the main request triggers the REST-summary fallback, whose
successful result is paired with the ORIGINAL status code; every
`raise_for_status` on a 4xx/5xx status surfaces as `FetchFailure.httpError`. -/
def fetch_page (env : WikiEnv) (title : String) (full : Bool) (mode : Mode) :
    Except FetchFailure (WikiData × Nat) :=
  match mode with
  | .wikitext =>
    match env.main title with
    | .exc => .error .otherExc
    | .resp s body =>
      if 400 ≤ s ∧ s < 600 then .error (.httpError (some s))
      else .ok (.wikitextData body, s)
  | .html =>
    match env.main title with
    | .exc => .error .otherExc
    | .resp s body =>
      if 400 ≤ s ∧ s < 600 then .error (.httpError (some s))
      else .ok (.htmlData body, s)
  | .extract =>
    match env.main title with
    | .exc => .error .otherExc
    | .resp s body =>
      if s = 403 ∨ s = 429 then
        match env.rest title with
        | .exc => .error .otherExc
        | .resp st ti ex cu th =>
          if 400 ≤ st ∧ st < 600 then .error (.httpError (some st))
          else .ok (.extractSummary ti ex cu th, s)
      else if 400 ≤ s ∧ s < 600 then .error (.httpError (some s))
      else .ok (.extractFull body, s)

/-- The two `except` branches of `run`'s per-title handler:
`requests.HTTPError` is logged with `status = getattr(he.response,
"status_code", None) or 0` and `retryable = status in RETRYABLE_STATUS`;
every other exception is logged with status `0` and `retryable = True`. -/
def classifyFailure : FetchFailure → Nat × Bool
  | .httpError st => ((st.getD 0), RETRYABLE_STATUS.contains (st.getD 0))
  | .otherExc => (0, true)

/-- State of one invocation of `bronze_crawl_wiki.run`.  `queue`, `visited`,
`results` mirror the Python locals; `doneLog`/`errorLog` are the lines
appended to `done.txt`/`error.txt` this run (error entries reduced to the
(title, status, retryable) triple); `fetched`, `fetchStarts`, `pushedLog`
and `clock` are ghost observations (titles reaching `fetch_page`, the clock
at each such attempt, titles appended to the queue by link expansion, and
elapsed abstract time). -/
structure WikiState where
  queue : List (String × Nat)
  visited : List String
  results : List String
  doneLog : List String
  errorLog : List (String × Nat × Bool)
  fetched : List String
  pushedLog : List String
  fetchStarts : List Nat
  clock : Nat

/-- Link expansion after a successful fetch (`if depth < max_depth: ...`):
qualifying links (`lt not in visited and is_footballish(lt)`) are appended
to the queue tail at `depth + 1`. -/
def wikiExpand (cfg : WikiCfg) (env : WikiEnv) (s : WikiState)
    (title : String) (depth : Nat) : WikiState :=
  if depth < cfg.maxDepth then
    match env.links title with
    | .ok lts =>
      let new := lts.filter (fun lt => !(decide (lt ∈ s.visited)) && is_footballish lt)
      { s with queue := s.queue ++ new.map (fun lt => (lt, depth + 1)),
               pushedLog := s.pushedLog ++ new }
    | .error _ => s
  else s

/-- Processing of one popped, not-yet-visited title: mark visited, attempt
`fetch_page`, then on success append to results/`done.txt` and expand links,
on failure append the classified error line; the `finally: time.sleep(delay)`
advances the clock by the fetch duration plus the delay. -/
def wikiProcess (cfg : WikiCfg) (env : WikiEnv) (s : WikiState)
    (title : String) (depth : Nat) : WikiState :=
  let s1 := { s with visited := title :: s.visited,
                     fetched := s.fetched ++ [title],
                     fetchStarts := s.clock :: s.fetchStarts }
  let s2 :=
    match fetch_page env title cfg.full cfg.mode with
    | .ok _ =>
      wikiExpand cfg env
        { s1 with results := s1.results ++ [title],
                  doneLog := s1.doneLog ++ [title] } title depth
    | .error f =>
      { s1 with errorLog :=
          s1.errorLog ++ [(title, (classifyFailure f).1, (classifyFailure f).2)] }
  { s2 with clock := s.clock + env.dur s.fetchStarts.length + cfg.delay }

/-- One iteration of the `while` loop body: pop the head of the queue and
either drop it silently (already visited: the `continue` runs before the
`try`/`finally`, so neither fetch nor sleep happens) or process it. -/
def wikiBody (cfg : WikiCfg) (env : WikiEnv) (s : WikiState) : WikiState :=
  match s.queue with
  | [] => s
  | (title, depth) :: rest =>
    if title ∈ s.visited then { s with queue := rest }
    else wikiProcess cfg env { s with queue := rest } title depth

/-- The `while` condition: `queue and (len(results) + len(done)) < max_pages`,
where `done` is the startup done-set (never mutated during the run). -/
def wikiCond (cfg : WikiCfg) (done0 : List String) (s : WikiState) : Bool :=
  !s.queue.isEmpty && decide (s.results.length + done0.length < cfg.maxPages)

/-- Fuel-indexed iteration of the loop.  The boolean is `true` exactly when
the loop exited because its condition became false (normal termination),
and `false` when the fuel ran out first. -/
def wikiLoop (cfg : WikiCfg) (env : WikiEnv) (done0 : List String) :
    Nat → WikiState → WikiState × Bool
  | 0, s => (s, !wikiCond cfg done0 s)
  | fuel + 1, s =>
    if wikiCond cfg done0 s then wikiLoop cfg env done0 fuel (wikiBody cfg env s)
    else (s, true)

/-- The startup state of `run`: queue seeded from `TOPICS` at depth 0 and
`visited = set(done) | set(permanent_error_skip)`. -/
def wikiInitState (doneLines errLines : List String) : WikiState :=
  { queue := TOPICS.map (fun t => (t, 0)),
    visited := Crawl.loadDone doneLines ++ load_permanent_errors errLines,
    results := [], doneLog := [], errorLog := [], fetched := [],
    pushedLog := [], fetchStarts := [], clock := 0 }

/-- `run(max_depth, max_pages, delay, full, mode)` with the ledger files'
contents passed explicitly and bounded by fuel. -/
def wikiRun (fuel : Nat) (cfg : WikiCfg) (env : WikiEnv)
    (doneLines errLines : List String) : WikiState × Bool :=
  wikiLoop cfg env (Crawl.loadDone doneLines) fuel (wikiInitState doneLines errLines)

end Wiki

namespace Web

/-- `bronze_crawl_web.RETRYABLE_STATUS`. -/
def RETRYABLE_STATUS : List Nat := [403, 408, 429, 500, 502, 503, 504]

/-- `bronze_crawl_web.FOOTBALL_URL_KEYWORDS`. -/
def FOOTBALL_URL_KEYWORDS : List String :=
  ["bongda", "bong-da", "bong_da", "bongdanu", "bong-da-nu", "vleague",
   "v-league", "v.league", "vff", "vdv", "clb", "fc", "futsal", "worldcup",
   "world-cup", "world_cup", "sea-games", "seagames", "aff", "aff-cup",
   "cup", "champions-league", "championsleague", "ngoai-hang",
   "premier-league", "san-van-dong", "sanvandong", "doi-tuyen", "doi-bong",
   "cau-thu", "cauthu", "huan-luyen-vien", "huanluyenvien"]

/-- `is_footballish_url(url)`: case-insensitive URL keyword test (the
seed-host shortcut in the source is commented out, so only keywords count). -/
def is_footballish_url (url : String) : Bool :=
  FOOTBALL_URL_KEYWORDS.any (fun k => Crawl.pyContains (Crawl.pyLower url) k)

/-- `normalize_url(base, link)`.  `urljoin` is abstracted into an oracle
`uj`; `none` stands for the (caught) exception case.  A joined URL whose
parsed scheme does not start with `"http"` yields `""`; otherwise the URL is
returned with everything from the first `#` removed. -/
def normalize_url (uj : String → String → Option String)
    (base link : String) : String :=
  match uj base link with
  | none => ""
  | some u =>
    if Crawl.pyStartsWith (Crawl.urlScheme u) "http" then Crawl.stripFrag u else ""

/-- The robots ruleset obtained from a parsed `robots.txt`:
`rp.can_fetch(USER_AGENT, url)` as a predicate on URLs. -/
def Ruleset : Type := String → Bool

/-- Outcome of the `requests.get(robots_url, ...)` call (plus the subsequent
`rp.parse`): either some exception during transport/parse, or a response with
a status code and — when the code proceeds to parse it — the parsed ruleset. -/
inductive RobotsOutcome where
  | exc
  | ok (status : Nat) (rules : Ruleset)

/-- The per-origin policy cache `rp_cache`: `robots_url ↦ none` is the
"policy undeterminable" sentinel (`rp_cache[robots_url] = None`),
`robots_url ↦ some rules` a parsed ruleset. -/
def RpCache : Type := List (String × Option Ruleset)

/-- `f"{parsed.scheme}://{parsed.netloc}/robots.txt"`. -/
def robotsUrlOf (url : String) : String :=
  Crawl.urlScheme url ++ "://" ++ Crawl.urlNetloc url ++ "/robots.txt"

/-- `allowed_by_robots(url, rp_cache)`.  On a cache miss the origin's
robots endpoint is fetched once: an HTTP error status (`>= 400`) or any
exception caches the `None` sentinel and fails open immediately with a
diagnostic reason; a parsed ruleset is cached and then consulted.  On a
cache hit the sentinel fails open (`robots_unavailable`) and a ruleset
yields its verdict (`robots_disallow` on denial). -/
def allowed_by_robots (fetchRobots : String → RobotsOutcome)
    (url : String) (cache : RpCache) : (Bool × String) × RpCache :=
  let robotsUrl := robotsUrlOf url
  match (cache.lookup robotsUrl : Option (Option Ruleset)) with
  | some entry =>
    match entry with
    | none => ((true, "robots_unavailable:" ++ robotsUrl), cache)
    | some rules =>
      if rules url then ((true, ""), cache) else ((false, "robots_disallow"), cache)
  | none =>
    match fetchRobots robotsUrl with
    | .exc => ((true, "robots_read_failed:" ++ robotsUrl), (robotsUrl, none) :: cache)
    | .ok status rules =>
      if 400 ≤ status then
        ((true, "robots_http_" ++ toString status ++ ":" ++ robotsUrl),
          (robotsUrl, none) :: cache)
      else
        let cache' := (robotsUrl, some rules) :: cache
        if rules url then ((true, ""), cache')
        else ((false, "robots_disallow"), cache')

/-- `extract_links(url, html)` with the `<a href>` targets of the page
given as `hrefs`: normalize each, drop empty results, keep football-looking
URLs, preserving order. -/
def extract_links (uj : String → String → Option String)
    (url : String) (hrefs : List String) : List String :=
  (hrefs.map (normalize_url uj url)).filter
    (fun u => !(u == "") && is_footballish_url u)

/-- Network oracle for one web run: robots responses per robots-URL, the
page fetch per URL (`.error msg` is any exception out of `session.get` /
`raise_for_status`), the hrefs BeautifulSoup would extract from an HTML
payload, the `urljoin` oracle, and abstract durations as in the wiki model. -/
structure WebEnv where
  robots : String → RobotsOutcome
  page : String → Except String String
  hrefsOf : String → List String
  uj : String → String → Option String
  dur : Nat → Nat

/-- Configuration of `bronze_crawl_web.run`. -/
structure WebCfg where
  maxDepth : Nat
  maxPages : Nat
  delay : Nat

/-- State of one invocation of `bronze_crawl_web.run`; fields as in
`Wiki.WikiState` except that `results` is the integer success counter and
the error log keeps `(url, reason-or-message)` lines. -/
structure WebState where
  queue : List (String × Nat)
  visited : List String
  results : Nat
  doneLog : List String
  errorLog : List (String × String)
  fetched : List String
  pushedLog : List String
  fetchStarts : List Nat
  rpCache : RpCache
  clock : Nat

/-- Processing of one popped, not-yet-visited URL: policy check first
(denial logs the reason and skips the fetch but still sleeps), then the
fetch, save, done-append, link expansion at `depth + 1`; any exception logs
an error line; the `finally` sleep always advances the clock. -/
def webProcess (cfg : WebCfg) (env : WebEnv) (s : WebState)
    (url : String) (depth : Nat) : WebState :=
  let s1 := { s with visited := url :: s.visited }
  let pr := allowed_by_robots env.robots url s1.rpCache
  let s1 := { s1 with rpCache := pr.2 }
  let s2 :=
    if !pr.1.1 then { s1 with errorLog := s1.errorLog ++ [(url, pr.1.2)] }
    else
      let s1f := { s1 with fetched := s1.fetched ++ [url],
                           fetchStarts := s1.clock :: s1.fetchStarts }
      match env.page url with
      | .ok html =>
        let s3 := { s1f with doneLog := s1f.doneLog ++ [url],
                             results := s1f.results + 1 }
        if depth < cfg.maxDepth then
          let new := (extract_links env.uj url (env.hrefsOf html)).filter
            (fun u => !(decide (u ∈ s3.visited)))
          { s3 with queue := s3.queue ++ new.map (fun u => (u, depth + 1)),
                    pushedLog := s3.pushedLog ++ new }
        else s3
      | .error msg => { s1f with errorLog := s1f.errorLog ++ [(url, msg)] }
  { s2 with clock := s.clock + env.dur s.fetchStarts.length + cfg.delay }

/-- One iteration of the web `while` loop body. -/
def webBody (cfg : WebCfg) (env : WebEnv) (s : WebState) : WebState :=
  match s.queue with
  | [] => s
  | (url, depth) :: rest =>
    if url ∈ s.visited then { s with queue := rest }
    else webProcess cfg env { s with queue := rest } url depth

/-- The `while` condition: `queue and results < max_pages` (current-run
successes only). -/
def webCond (cfg : WebCfg) (s : WebState) : Bool :=
  !s.queue.isEmpty && decide (s.results < cfg.maxPages)

/-- Fuel-indexed loop; boolean as in `Wiki.wikiLoop`. -/
def webLoop (cfg : WebCfg) (env : WebEnv) :
    Nat → WebState → WebState × Bool
  | 0, s => (s, !webCond cfg s)
  | fuel + 1, s =>
    if webCond cfg s then webLoop cfg env fuel (webBody cfg env s)
    else (s, true)

/-- The startup state of `run(seeds, ...)`: queue seeded at depth 0 and
`visited = set(done)` (the web crawler loads no permanent-error skip set). -/
def webInitState (seeds : List String) (doneLines : List String) : WebState :=
  { queue := seeds.map (fun u => (u, 0)),
    visited := Crawl.loadDone doneLines,
    results := 0, doneLog := [], errorLog := [], fetched := [],
    pushedLog := [], fetchStarts := [], rpCache := [], clock := 0 }

/-- `run(seeds, max_pages, max_depth, delay, timeout)` with the done file's
lines passed explicitly and bounded by fuel. -/
def webRun (fuel : Nat) (seeds : List String) (cfg : WebCfg) (env : WebEnv)
    (doneLines : List String) : WebState × Bool :=
  webLoop cfg env fuel (webInitState seeds doneLines)

end Web

namespace Web

/-- Invariants preserved by every executed loop iteration hold of the state
the fuel-indexed loop reaches. -/
theorem webLoopInv (cfg : WebCfg) (env : WebEnv) (P : WebState → Prop)
    (hstep : ∀ s, webCond cfg s = true → P s → P (webBody cfg env s)) :
    ∀ fuel s, P s → P (webLoop cfg env fuel s).1 := by
  intro fuel
  induction fuel with
  | zero => intro s h; exact h
  | succ f ih =>
    intro s h
    by_cases hc : webCond cfg s = true
    · simp only [webLoop, if_pos hc]
      exact ih _ (hstep s hc h)
    · simp only [webLoop, if_neg hc]
      exact h

/-- When the loop reports normal termination, its condition is false at the
final state. -/
theorem webLoopFin (cfg : WebCfg) (env : WebEnv) :
    ∀ fuel s, (webLoop cfg env fuel s).2 = true →
      webCond cfg (webLoop cfg env fuel s).1 = false := by
  intro fuel
  induction fuel with
  | zero =>
    intro s h
    simpa [webLoop] using h
  | succ f ih =>
    intro s h
    by_cases hc : webCond cfg s = true
    · simp only [webLoop, if_pos hc] at h ⊢
      exact ih _ h
    · simp only [webLoop, if_neg hc]
      simpa using hc

theorem webProcess_visited (cfg : WebCfg) (env : WebEnv) (s : WebState)
    (url : String) (d : Nat) :
    (webProcess cfg env s url d).visited = url :: s.visited := by
  simp only [webProcess]
  by_cases hb : (allowed_by_robots env.robots url s.rpCache).1.1 = true
  · simp only [hb]
    cases hp : env.page url with
    | ok html =>
      by_cases hd : d < cfg.maxDepth
      · simp [hd]
      · simp [hd]
    | error msg => simp
  · simp only [Bool.not_eq_true] at hb
    simp [hb]

theorem webProcess_clock (cfg : WebCfg) (env : WebEnv) (s : WebState)
    (url : String) (d : Nat) :
    (webProcess cfg env s url d).clock
      = s.clock + env.dur s.fetchStarts.length + cfg.delay := by
  simp [webProcess]

theorem webProcess_fetched_mem (cfg : WebCfg) (env : WebEnv) (s : WebState)
    (url : String) (d : Nat) (u : String)
    (hu : u ∈ (webProcess cfg env s url d).fetched) :
    u ∈ s.fetched ∨ u = url := by
  simp only [webProcess] at hu
  by_cases hb : (allowed_by_robots env.robots url s.rpCache).1.1 = true
  · simp only [hb] at hu
    cases hp : env.page url with
    | ok html =>
      rw [hp] at hu
      by_cases hd : d < cfg.maxDepth
      · simp [hd] at hu
        simpa using hu
      · simp [hd] at hu
        simpa using hu
    | error msg =>
      rw [hp] at hu
      simp at hu
      simpa using hu
  · simp only [Bool.not_eq_true] at hb
    simp [hb] at hu
    exact Or.inl hu

theorem webProcess_fetchStarts (cfg : WebCfg) (env : WebEnv) (s : WebState)
    (url : String) (d : Nat) :
    (webProcess cfg env s url d).fetchStarts = s.fetchStarts ∨
      (webProcess cfg env s url d).fetchStarts = s.clock :: s.fetchStarts := by
  simp only [webProcess]
  by_cases hb : (allowed_by_robots env.robots url s.rpCache).1.1 = true
  · simp only [hb]
    cases hp : env.page url with
    | ok html =>
      by_cases hd : d < cfg.maxDepth
      · simp [hd]
      · simp [hd]
    | error msg => simp
  · simp only [Bool.not_eq_true] at hb
    simp [hb]

theorem webProcess_results_le (cfg : WebCfg) (env : WebEnv) (s : WebState)
    (url : String) (d : Nat) :
    (webProcess cfg env s url d).results ≤ s.results + 1 := by
  simp only [webProcess]
  by_cases hb : (allowed_by_robots env.robots url s.rpCache).1.1 = true
  · simp only [hb]
    cases hp : env.page url with
    | ok html =>
      by_cases hd : d < cfg.maxDepth
      · simp [hd]
      · simp [hd]
    | error msg => simp
  · simp only [Bool.not_eq_true] at hb
    simp [hb]

/-- Queue entries after processing one URL: old entries or links produced by
`extract_links` on the fetched page, pushed at depth `d + 1` only when
`d < maxDepth`. -/
theorem webProcess_queue_mem (cfg : WebCfg) (env : WebEnv) (s : WebState)
    (url : String) (d : Nat) (e : String × Nat)
    (he : e ∈ (webProcess cfg env s url d).queue) :
    e ∈ s.queue ∨
      (d < cfg.maxDepth ∧ ∃ html, env.page url = .ok html ∧
        e.1 ∈ extract_links env.uj url (env.hrefsOf html) ∧ e.2 = d + 1) := by
  simp only [webProcess] at he
  by_cases hb : (allowed_by_robots env.robots url s.rpCache).1.1 = true
  · simp only [hb] at he
    cases hp : env.page url with
    | ok html =>
      rw [hp] at he
      by_cases hd : d < cfg.maxDepth
      · simp only [hd, Bool.not_true, Bool.false_eq_true, if_false, if_true,
          if_pos hd, List.append_eq, List.mem_append, List.mem_map,
          List.mem_filter] at he
        rcases he with he | ⟨v, ⟨hv, _⟩, hve⟩
        · left
          simpa using he
        · right
          exact ⟨hd, html, rfl, by rw [← hve]; exact hv, by rw [← hve]⟩
      · simp only [hd, Bool.not_true, Bool.false_eq_true, if_false,
          if_neg hd] at he
        left
        simpa using he
    | error msg =>
      rw [hp] at he
      simp at he
      left
      simpa using he
  · simp only [Bool.not_eq_true] at hb
    simp [hb] at he
    exact Or.inl he

/-- Pushed-log entries after processing one URL: old entries or members of
an `extract_links` result. -/
theorem webProcess_pushedLog_mem (cfg : WebCfg) (env : WebEnv) (s : WebState)
    (url : String) (d : Nat) (u : String)
    (hu : u ∈ (webProcess cfg env s url d).pushedLog) :
    u ∈ s.pushedLog ∨
      ∃ html, env.page url = .ok html ∧
        u ∈ extract_links env.uj url (env.hrefsOf html) := by
  simp only [webProcess] at hu
  by_cases hb : (allowed_by_robots env.robots url s.rpCache).1.1 = true
  · simp only [hb] at hu
    cases hp : env.page url with
    | ok html =>
      rw [hp] at hu
      by_cases hd : d < cfg.maxDepth
      · simp [hd] at hu
        rcases hu with hu | ⟨hv, _⟩
        · exact Or.inl hu
        · exact Or.inr ⟨html, rfl, hv⟩
      · simp only [hd, Bool.not_true, Bool.false_eq_true, if_false,
          if_neg hd] at hu
        exact Or.inl hu
    | error msg =>
      rw [hp] at hu
      simp at hu
      exact Or.inl hu
  · simp only [Bool.not_eq_true] at hb
    simp [hb] at hu
    exact Or.inl hu

end Web

namespace Crawl

/-- Number of HTTP requests the `urllib3.util.retry.Retry(total=budget,
status_forcelist=forcelist)` adapter issues for one logical GET, given the
status of the `n`-th attempt: one initial request plus a retry while the
status is in the forcelist and budget remains. -/
def sessionAttempts (forcelist : List Nat) (statuses : Nat → Nat) :
    Nat → Nat → Nat
  | 0, _ => 1
  | budget + 1, n =>
    if (statuses n) ∈ forcelist then 1 + sessionAttempts forcelist statuses budget (n + 1)
    else 1

theorem sessionAttempts_le (forcelist : List Nat) (statuses : Nat → Nat) :
    ∀ budget n, sessionAttempts forcelist statuses budget n ≤ budget + 1 := by
  intro budget
  induction budget with
  | zero => intro n; simp [sessionAttempts]
  | succ b ih =>
    intro n
    by_cases h : (statuses n) ∈ forcelist
    · simp only [sessionAttempts, if_pos h]
      have := ih (n + 1)
      omega
    · simp only [sessionAttempts, if_neg h]
      omega

end Crawl

namespace Wiki

/-- One page of the paginated `action=query&prop=links` response inside
`fetch_links`: HTTP status, extracted link titles, and the `plcontinue`
continuation token. -/
structure LinksResp where
  status : Nat
  links : List String
  plcontinue : Option String

/-- Result of the `fetch_links` pagination loop under bounded fuel:
`diverged` means the loop was still running when the fuel ran out. -/
inductive FLResult where
  | ok (links : List String)
  | err (status : Nat)
  | diverged
deriving DecidableEq

/-- The `while True` loop of `fetch_links(title, delay)`, with the response
of the `n`-th GET given by the oracle `o`: a `403`/`429` status sleeps and
retries the same request unconditionally (`continue`); any other status
`>= 400` raises out of the loop (`raise_for_status`); otherwise the page's
links are accumulated and the loop continues while `plcontinue` is present. -/
def fetchLinksGo (o : Nat → LinksResp) : Nat → Nat → List String → FLResult
  | 0, _, _ => .diverged
  | fuel + 1, n, acc =>
    let r := o n
    if r.status = 403 ∨ r.status = 429 then fetchLinksGo o fuel (n + 1) acc
    else if 400 ≤ r.status then .err r.status
    else
      match r.plcontinue with
      | some _ => fetchLinksGo o fuel (n + 1) (acc ++ r.links)
      | none => .ok (acc ++ r.links)

/-- `fetch_links` run from the first request with an empty accumulator. -/
def fetch_links (o : Nat → LinksResp) (fuel : Nat) : FLResult :=
  fetchLinksGo o fuel 0 []

/-- An upstream that answers every links request with HTTP 429. -/
def always429 : Nat → LinksResp := fun _ => ⟨429, [], none⟩

theorem fetchLinksGo_always429 :
    ∀ fuel n acc, fetchLinksGo always429 fuel n acc = .diverged := by
  intro fuel
  induction fuel with
  | zero => intro n acc; rfl
  | succ f ih =>
    intro n acc
    simp only [fetchLinksGo, always429]
    exact ih (n + 1) acc

/-- Invariants preserved by every executed loop iteration hold of the state
the fuel-indexed loop reaches. -/
theorem wikiLoopInv (cfg : WikiCfg) (env : WikiEnv) (done0 : List String)
    (P : WikiState → Prop)
    (hstep : ∀ s, wikiCond cfg done0 s = true → P s → P (wikiBody cfg env s)) :
    ∀ fuel s, P s → P (wikiLoop cfg env done0 fuel s).1 := by
  intro fuel
  induction fuel with
  | zero => intro s h; exact h
  | succ f ih =>
    intro s h
    by_cases hc : wikiCond cfg done0 s = true
    · simp only [wikiLoop, if_pos hc]
      exact ih _ (hstep s hc h)
    · simp only [wikiLoop, if_neg hc]
      exact h

/-- When the loop reports normal termination, its condition is false at the
final state. -/
theorem wikiLoopFin (cfg : WikiCfg) (env : WikiEnv) (done0 : List String) :
    ∀ fuel s, (wikiLoop cfg env done0 fuel s).2 = true →
      wikiCond cfg done0 (wikiLoop cfg env done0 fuel s).1 = false := by
  intro fuel
  induction fuel with
  | zero =>
    intro s h
    simpa [wikiLoop] using h
  | succ f ih =>
    intro s h
    by_cases hc : wikiCond cfg done0 s = true
    · simp only [wikiLoop, if_pos hc] at h ⊢
      exact ih _ h
    · simp only [wikiLoop, if_neg hc]
      simpa using hc

theorem wikiExpand_visited (cfg : WikiCfg) (env : WikiEnv) (s : WikiState)
    (t : String) (d : Nat) : (wikiExpand cfg env s t d).visited = s.visited := by
  unfold wikiExpand
  repeat' split
  all_goals rfl

theorem wikiExpand_fetched (cfg : WikiCfg) (env : WikiEnv) (s : WikiState)
    (t : String) (d : Nat) : (wikiExpand cfg env s t d).fetched = s.fetched := by
  unfold wikiExpand
  repeat' split
  all_goals rfl

theorem wikiExpand_results (cfg : WikiCfg) (env : WikiEnv) (s : WikiState)
    (t : String) (d : Nat) : (wikiExpand cfg env s t d).results = s.results := by
  unfold wikiExpand
  repeat' split
  all_goals rfl

theorem wikiExpand_doneLog (cfg : WikiCfg) (env : WikiEnv) (s : WikiState)
    (t : String) (d : Nat) : (wikiExpand cfg env s t d).doneLog = s.doneLog := by
  unfold wikiExpand
  repeat' split
  all_goals rfl

theorem wikiExpand_errorLog (cfg : WikiCfg) (env : WikiEnv) (s : WikiState)
    (t : String) (d : Nat) : (wikiExpand cfg env s t d).errorLog = s.errorLog := by
  unfold wikiExpand
  repeat' split
  all_goals rfl

theorem wikiExpand_fetchStarts (cfg : WikiCfg) (env : WikiEnv) (s : WikiState)
    (t : String) (d : Nat) :
    (wikiExpand cfg env s t d).fetchStarts = s.fetchStarts := by
  unfold wikiExpand
  repeat' split
  all_goals rfl

/-- Every queue entry after link expansion is an old entry or a freshly
filtered link at depth `d + 1`, pushed only when `d < maxDepth`. -/
theorem wikiExpand_queue_mem (cfg : WikiCfg) (env : WikiEnv) (s : WikiState)
    (t : String) (d : Nat) (e : String × Nat)
    (he : e ∈ (wikiExpand cfg env s t d).queue) :
    e ∈ s.queue ∨
      (d < cfg.maxDepth ∧ ∃ lts, env.links t = .ok lts ∧ e.1 ∈ lts ∧
        e.1 ∉ s.visited ∧ is_footballish e.1 = true ∧ e.2 = d + 1) := by
  unfold wikiExpand at he
  by_cases hd : d < cfg.maxDepth
  · rw [if_pos hd] at he
    cases hl : env.links t with
    | error u =>
      rw [hl] at he
      exact Or.inl he
    | ok lts =>
      rw [hl] at he
      simp only [List.mem_append] at he
      rcases he with he | he
      · exact Or.inl he
      · right
        refine ⟨hd, lts, rfl, ?_⟩
        simp only [List.mem_map] at he
        obtain ⟨lt, hlt, hlte⟩ := he
        simp only [List.mem_filter, Bool.and_eq_true, Bool.not_eq_true',
          decide_eq_false_iff_not] at hlt
        exact ⟨by rw [← hlte]; exact hlt.1, by rw [← hlte]; exact hlt.2.1,
          by rw [← hlte]; exact hlt.2.2, by rw [← hlte]⟩
  · rw [if_neg hd] at he
    exact Or.inl he

/-- Every pushed-log entry after link expansion is old or a fresh link not
yet visited. -/
theorem wikiExpand_pushedLog_mem (cfg : WikiCfg) (env : WikiEnv) (s : WikiState)
    (t : String) (d : Nat) (u : String)
    (hu : u ∈ (wikiExpand cfg env s t d).pushedLog) :
    u ∈ s.pushedLog ∨ u ∉ s.visited := by
  unfold wikiExpand at hu
  by_cases hd : d < cfg.maxDepth
  · rw [if_pos hd] at hu
    cases hl : env.links t with
    | error v =>
      rw [hl] at hu
      exact Or.inl hu
    | ok lts =>
      rw [hl] at hu
      simp only [List.mem_append] at hu
      rcases hu with hu | hu
      · exact Or.inl hu
      · right
        simp only [List.mem_filter, Bool.and_eq_true, Bool.not_eq_true',
          decide_eq_false_iff_not] at hu
        exact hu.2.1
  · rw [if_neg hd] at hu
    exact Or.inl hu

theorem wikiProcess_visited (cfg : WikiCfg) (env : WikiEnv) (s : WikiState)
    (t : String) (d : Nat) :
    (wikiProcess cfg env s t d).visited = t :: s.visited := by
  unfold wikiProcess
  cases fetch_page env t cfg.full cfg.mode with
  | ok v => simp only [wikiExpand_visited]
  | error f => rfl

theorem wikiProcess_fetched (cfg : WikiCfg) (env : WikiEnv) (s : WikiState)
    (t : String) (d : Nat) :
    (wikiProcess cfg env s t d).fetched = s.fetched ++ [t] := by
  unfold wikiProcess
  cases fetch_page env t cfg.full cfg.mode with
  | ok v => simp only [wikiExpand_fetched]
  | error f => rfl

theorem wikiProcess_fetchStarts (cfg : WikiCfg) (env : WikiEnv) (s : WikiState)
    (t : String) (d : Nat) :
    (wikiProcess cfg env s t d).fetchStarts = s.clock :: s.fetchStarts := by
  unfold wikiProcess
  cases fetch_page env t cfg.full cfg.mode with
  | ok v => simp only [wikiExpand_fetchStarts]
  | error f => rfl

theorem wikiProcess_clock (cfg : WikiCfg) (env : WikiEnv) (s : WikiState)
    (t : String) (d : Nat) :
    (wikiProcess cfg env s t d).clock
      = s.clock + env.dur s.fetchStarts.length + cfg.delay := by
  unfold wikiProcess
  cases fetch_page env t cfg.full cfg.mode with
  | ok v => rfl
  | error f => rfl

/-- Queue entries after processing one title: old entries or freshly pushed
links at depth `d + 1` satisfying the push conditions. -/
theorem wikiProcess_queue_mem (cfg : WikiCfg) (env : WikiEnv) (s : WikiState)
    (t : String) (d : Nat) (e : String × Nat)
    (he : e ∈ (wikiProcess cfg env s t d).queue) :
    e ∈ s.queue ∨
      (d < cfg.maxDepth ∧ ∃ lts, env.links t = .ok lts ∧ e.1 ∈ lts ∧
        e.2 = d + 1) := by
  unfold wikiProcess at he
  cases hp : fetch_page env t cfg.full cfg.mode with
  | ok v =>
    rw [hp] at he
    have := wikiExpand_queue_mem cfg env
      { s with visited := t :: s.visited, fetched := s.fetched ++ [t],
               fetchStarts := s.clock :: s.fetchStarts,
               results := s.results ++ [t], doneLog := s.doneLog ++ [t] }
      t d e he
    rcases this with h | ⟨hd, lts, hl, hmem, _, _, hdep⟩
    · exact Or.inl h
    · exact Or.inr ⟨hd, lts, hl, hmem, hdep⟩
  | error f =>
    rw [hp] at he
    exact Or.inl he

/-- Pushed-log entries after processing one title: old entries or links that
were not yet visited at push time (in particular not in the initial visited
set, which only ever grows). -/
theorem wikiProcess_pushedLog_mem (cfg : WikiCfg) (env : WikiEnv) (s : WikiState)
    (t : String) (d : Nat) (u : String)
    (hu : u ∈ (wikiProcess cfg env s t d).pushedLog) :
    u ∈ s.pushedLog ∨ u ∉ (t :: s.visited) := by
  unfold wikiProcess at hu
  cases hp : fetch_page env t cfg.full cfg.mode with
  | ok v =>
    rw [hp] at hu
    have := wikiExpand_pushedLog_mem cfg env
      { s with visited := t :: s.visited, fetched := s.fetched ++ [t],
               fetchStarts := s.clock :: s.fetchStarts,
               results := s.results ++ [t], doneLog := s.doneLog ++ [t] }
      t d u hu
    exact this
  | error f =>
    rw [hp] at hu
    exact Or.inl hu

theorem wikiProcess_results_le (cfg : WikiCfg) (env : WikiEnv) (s : WikiState)
    (t : String) (d : Nat) :
    (wikiProcess cfg env s t d).results.length ≤ s.results.length + 1 := by
  unfold wikiProcess
  cases fetch_page env t cfg.full cfg.mode with
  | ok v =>
    simp only [wikiExpand_results]
    simp
  | error f => simp

end Wiki

/-- The visited set only grows and always contains the startup done-set,
and every title that reaches the fetch call was outside the visited set
when popped — hence outside the done ledger. -/
theorem Wiki.wikiDoneInv (cfg : WikiCfg) (env : WikiEnv) (done0 : List String)
    (fuel : Nat) (s : WikiState)
    (h : (∀ t ∈ done0, t ∈ s.visited) ∧ (∀ t ∈ s.fetched, t ∉ done0)) :
    (∀ t ∈ done0, t ∈ (wikiLoop cfg env done0 fuel s).1.visited) ∧
      (∀ t ∈ (wikiLoop cfg env done0 fuel s).1.fetched, t ∉ done0) := by
  apply wikiLoopInv cfg env done0
    (fun s => (∀ t ∈ done0, t ∈ s.visited) ∧ (∀ t ∈ s.fetched, t ∉ done0))
    ?_ fuel s h
  intro s hc hP
  unfold wikiBody
  split
  · exact hP
  · rename_i t d rest hq
    by_cases hv : t ∈ s.visited
    · rw [if_pos hv]
      exact hP
    · rw [if_neg hv]
      constructor
      · intro x hx
        rw [wikiProcess_visited]
        exact List.mem_cons_of_mem _ (hP.1 x hx)
      · intro x hx
        rw [wikiProcess_fetched] at hx
        rcases List.mem_append.mp hx with hx | hx
        · exact hP.2 x hx
        · have hxt : x = t := by simpa using hx
          subst hxt
          intro hc'
          exact hv (hP.1 x hc')

/-- Web analogue of `Wiki.wikiDoneInv`. -/
theorem Web.webDoneInv (cfg : WebCfg) (env : WebEnv) (done0 : List String)
    (fuel : Nat) (s : WebState)
    (h : (∀ t ∈ done0, t ∈ s.visited) ∧ (∀ t ∈ s.fetched, t ∉ done0)) :
    (∀ t ∈ done0, t ∈ (webLoop cfg env fuel s).1.visited) ∧
      (∀ t ∈ (webLoop cfg env fuel s).1.fetched, t ∉ done0) := by
  apply webLoopInv cfg env
    (fun s => (∀ t ∈ done0, t ∈ s.visited) ∧ (∀ t ∈ s.fetched, t ∉ done0))
    ?_ fuel s h
  intro s hc hP
  unfold webBody
  split
  · exact hP
  · rename_i u d rest hq
    by_cases hv : u ∈ s.visited
    · rw [if_pos hv]
      exact hP
    · rw [if_neg hv]
      constructor
      · intro x hx
        rw [webProcess_visited]
        exact List.mem_cons_of_mem _ (hP.1 x hx)
      · intro x hx
        rcases webProcess_fetched_mem cfg env _ u d x hx with hx | hx
        · exact hP.2 x hx
        · subst hx
          intro hc'
          exact hv (hP.1 x hc')

/-- C1 (resume idempotence): in both crawlers, the `done` ledger is loaded
into a set at startup and seeded into the visited set, and a popped frontier
entry whose identity is in that set is dropped before any fetch; hence no
identity present as a line of the done file is ever fetched by a later run,
for every fuel bound, configuration and network behaviour. -/
theorem C1_resume_idempotence :
    (∀ fuel cfg env doneLines errLines,
      ((Wiki.wikiRun fuel cfg env doneLines errLines).1.fetched).all
        (fun t => decide (t ∉ Crawl.loadDone doneLines)) = true) ∧
    (∀ fuel seeds cfg env doneLines,
      ((Web.webRun fuel seeds cfg env doneLines).1.fetched).all
        (fun u => decide (u ∉ Crawl.loadDone doneLines)) = true) := by
  constructor
  · intro fuel cfg env doneLines errLines
    have key := Wiki.wikiDoneInv cfg env (Crawl.loadDone doneLines) fuel
      (Wiki.wikiInitState doneLines errLines)
      ⟨fun t ht => List.mem_append.mpr (Or.inl ht), fun t ht => absurd ht
        (List.not_mem_nil t)⟩
    rw [List.all_eq_true]
    intro t ht
    exact decide_eq_true (key.2 t ht)
  · intro fuel seeds cfg env doneLines
    have key := Web.webDoneInv cfg env (Crawl.loadDone doneLines) fuel
      (Web.webInitState seeds doneLines)
      ⟨fun t ht => ht, fun t ht => absurd ht (List.not_mem_nil t)⟩
    rw [List.all_eq_true]
    intro t ht
    exact decide_eq_true (key.2 t ht)

/-- Any set contained in the visited set at startup is avoided by every
fetch and by every link-expansion push for the rest of the run. -/
theorem Wiki.skipInv (cfg : WikiCfg) (env : WikiEnv) (done0 excl : List String)
    (fuel : Nat) (s : WikiState)
    (h : (∀ t ∈ excl, t ∈ s.visited) ∧ (∀ t ∈ s.fetched, t ∉ excl) ∧
      (∀ u ∈ s.pushedLog, u ∉ excl)) :
    (∀ t ∈ excl, t ∈ (wikiLoop cfg env done0 fuel s).1.visited) ∧
      (∀ t ∈ (wikiLoop cfg env done0 fuel s).1.fetched, t ∉ excl) ∧
      (∀ u ∈ (wikiLoop cfg env done0 fuel s).1.pushedLog, u ∉ excl) := by
  apply wikiLoopInv cfg env done0
    (fun s => (∀ t ∈ excl, t ∈ s.visited) ∧ (∀ t ∈ s.fetched, t ∉ excl) ∧
      (∀ u ∈ s.pushedLog, u ∉ excl))
    ?_ fuel s h
  intro s hc hP
  unfold wikiBody
  split
  · exact hP
  · rename_i t d rest hq
    by_cases hv : t ∈ s.visited
    · rw [if_pos hv]
      exact hP
    · rw [if_neg hv]
      refine ⟨?_, ?_, ?_⟩
      · intro x hx
        rw [wikiProcess_visited]
        exact List.mem_cons_of_mem _ (hP.1 x hx)
      · intro x hx
        rw [wikiProcess_fetched] at hx
        rcases List.mem_append.mp hx with hx | hx
        · exact hP.2.1 x hx
        · have hxt : x = t := by simpa using hx
          subst hxt
          intro hc'
          exact hv (hP.1 x hc')
      · intro x hx
        rcases wikiProcess_pushedLog_mem cfg env _ t d x hx with hx | hx
        · exact hP.2.2 x hx
        · intro hc'
          exact hx (List.mem_cons_of_mem _ (hP.1 x hc'))

/-- C3 (permanent-skip monotonicity): `load_permanent_errors` returns
exactly the first fields of well-formed error lines whose `retryable` field
is `"0"` (so identities logged only with `retryable = true` are absent from
the skip-set); the skip-set is seeded into the visited set, so no title in
it is ever fetched again nor re-appended to the frontier by link expansion
in any run. -/
theorem C3_permanent_skip_monotonicity :
    (∀ errLines (t : String),
      t ∈ Wiki.load_permanent_errors errLines ↔
        ∃ line ∈ errLines,
          3 ≤ (Crawl.pySplitTab (Crawl.pyStrip line)).length ∧
          (Crawl.pySplitTab (Crawl.pyStrip line)).getD 2 "" = "0" ∧
          (Crawl.pySplitTab (Crawl.pyStrip line)).headD "" = t) ∧
    (∀ fuel cfg env doneLines errLines,
      ((Wiki.wikiRun fuel cfg env doneLines errLines).1.fetched).all
        (fun t => decide (t ∉ Wiki.load_permanent_errors errLines)) = true) ∧
    (∀ fuel cfg env doneLines errLines,
      ((Wiki.wikiRun fuel cfg env doneLines errLines).1.pushedLog).all
        (fun t => decide (t ∉ Wiki.load_permanent_errors errLines)) = true) := by
  refine ⟨?_, ?_, ?_⟩
  · intro errLines t
    unfold Wiki.load_permanent_errors
    rw [List.mem_filterMap]
    constructor
    · rintro ⟨line, hline, hf⟩
      refine ⟨line, hline, ?_⟩
      simp only [] at hf
      split at hf
      · exact absurd hf (by simp)
      · split at hf
        · split at hf
          · rename_i hlen hret
            have := Option.some.inj hf
            exact ⟨hlen, hret, this⟩
          · exact absurd hf (by simp)
        · exact absurd hf (by simp)
    · rintro ⟨line, hline, h3, h0, ht⟩
      refine ⟨line, hline, ?_⟩
      simp only []
      have hne : Crawl.pyStrip line ≠ "" := by
        intro he
        rw [he] at h3
        simp [Crawl.pySplitTab, Crawl.splitOnChar] at h3
      rw [if_neg hne, if_pos h3, if_pos h0, ht]
  · intro fuel cfg env doneLines errLines
    have key := Wiki.skipInv cfg env (Crawl.loadDone doneLines)
      (Wiki.load_permanent_errors errLines) fuel
      (Wiki.wikiInitState doneLines errLines)
      ⟨fun t ht => List.mem_append.mpr (Or.inr ht),
       fun t ht => absurd ht (List.not_mem_nil t),
       fun t ht => absurd ht (List.not_mem_nil t)⟩
    rw [List.all_eq_true]
    intro t ht
    exact decide_eq_true (key.2.1 t ht)
  · intro fuel cfg env doneLines errLines
    have key := Wiki.skipInv cfg env (Crawl.loadDone doneLines)
      (Wiki.load_permanent_errors errLines) fuel
      (Wiki.wikiInitState doneLines errLines)
      ⟨fun t ht => List.mem_append.mpr (Or.inr ht),
       fun t ht => absurd ht (List.not_mem_nil t),
       fun t ht => absurd ht (List.not_mem_nil t)⟩
    rw [List.all_eq_true]
    intro t ht
    exact decide_eq_true (key.2.2 t ht)

/-- Reachability from the seed topics through the link oracle: `Reach env t d`
holds when some chain of `d` link-extractions connects a seed to `t`. -/
inductive Wiki.Reach (env : Wiki.WikiEnv) : String → Nat → Prop
  | seed (t : String) (h : t ∈ Wiki.TOPICS) : Wiki.Reach env t 0
  | step (p : String) (d : Nat) (lts : List String) (t : String)
      (hp : Wiki.Reach env p d) (hl : env.links p = .ok lts) (ht : t ∈ lts) :
      Wiki.Reach env t (d + 1)

/-- Reachability from the seeds through page fetches and `extract_links`. -/
inductive Web.Reach (env : Web.WebEnv) (seeds : List String) : String → Nat → Prop
  | seed (u : String) (h : u ∈ seeds) : Web.Reach env seeds u 0
  | step (p : String) (d : Nat) (html : String) (u : String)
      (hp : Web.Reach env seeds p d) (hpage : env.page p = .ok html)
      (hu : u ∈ Web.extract_links env.uj p (env.hrefsOf html)) :
      Web.Reach env seeds u (d + 1)

/-- Depth-bound invariant for the wiki loop: every queue entry carries a
depth `≤ maxDepth` witnessed by a link path of that length, and every
fetched title is reachable within `maxDepth` steps. -/
theorem Wiki.wikiDepthInv (cfg : WikiCfg) (env : WikiEnv) (done0 : List String)
    (fuel : Nat) (s : WikiState)
    (h : (∀ e ∈ s.queue, e.2 ≤ cfg.maxDepth ∧ Reach env e.1 e.2) ∧
      (∀ t ∈ s.fetched, ∃ d, d ≤ cfg.maxDepth ∧ Reach env t d)) :
    (∀ e ∈ (wikiLoop cfg env done0 fuel s).1.queue,
        e.2 ≤ cfg.maxDepth ∧ Reach env e.1 e.2) ∧
      (∀ t ∈ (wikiLoop cfg env done0 fuel s).1.fetched,
        ∃ d, d ≤ cfg.maxDepth ∧ Reach env t d) := by
  apply wikiLoopInv cfg env done0
    (fun s => (∀ e ∈ s.queue, e.2 ≤ cfg.maxDepth ∧ Reach env e.1 e.2) ∧
      (∀ t ∈ s.fetched, ∃ d, d ≤ cfg.maxDepth ∧ Reach env t d))
    ?_ fuel s h
  intro s hc hP
  unfold wikiBody
  split
  · exact hP
  · rename_i t d rest hq
    have hhead : (d ≤ cfg.maxDepth ∧ Reach env t d) :=
      hP.1 (t, d) (by rw [hq]; exact List.mem_cons_self _ _)
    have hrest : ∀ e ∈ rest, e.2 ≤ cfg.maxDepth ∧ Reach env e.1 e.2 :=
      fun e he => hP.1 e (by rw [hq]; exact List.mem_cons_of_mem _ he)
    by_cases hv : t ∈ s.visited
    · rw [if_pos hv]
      exact ⟨hrest, hP.2⟩
    · rw [if_neg hv]
      constructor
      · intro e he
        rcases wikiProcess_queue_mem cfg env _ t d e he with he | ⟨hd, lts, hl, hm, hdep⟩
        · exact hrest e he
        · constructor
          · rw [hdep]; omega
          · rw [hdep]
            exact Reach.step t d lts e.1 hhead.2 hl hm
      · intro x hx
        rw [wikiProcess_fetched] at hx
        rcases List.mem_append.mp hx with hx | hx
        · exact hP.2 x hx
        · have hxt : x = t := by simpa using hx
          subst hxt
          exact ⟨d, hhead.1, hhead.2⟩

/-- Depth-bound invariant for the web loop. -/
theorem Web.webDepthInv (cfg : WebCfg) (env : WebEnv) (seeds : List String)
    (fuel : Nat) (s : WebState)
    (h : (∀ e ∈ s.queue, e.2 ≤ cfg.maxDepth ∧ Reach env seeds e.1 e.2) ∧
      (∀ t ∈ s.fetched, ∃ d, d ≤ cfg.maxDepth ∧ Reach env seeds t d)) :
    (∀ e ∈ (webLoop cfg env fuel s).1.queue,
        e.2 ≤ cfg.maxDepth ∧ Reach env seeds e.1 e.2) ∧
      (∀ t ∈ (webLoop cfg env fuel s).1.fetched,
        ∃ d, d ≤ cfg.maxDepth ∧ Reach env seeds t d) := by
  apply webLoopInv cfg env
    (fun s => (∀ e ∈ s.queue, e.2 ≤ cfg.maxDepth ∧ Reach env seeds e.1 e.2) ∧
      (∀ t ∈ s.fetched, ∃ d, d ≤ cfg.maxDepth ∧ Reach env seeds t d))
    ?_ fuel s h
  intro s hc hP
  unfold webBody
  split
  · exact hP
  · rename_i u d rest hq
    have hhead : (d ≤ cfg.maxDepth ∧ Reach env seeds u d) :=
      hP.1 (u, d) (by rw [hq]; exact List.mem_cons_self _ _)
    have hrest : ∀ e ∈ rest, e.2 ≤ cfg.maxDepth ∧ Reach env seeds e.1 e.2 :=
      fun e he => hP.1 e (by rw [hq]; exact List.mem_cons_of_mem _ he)
    by_cases hv : u ∈ s.visited
    · rw [if_pos hv]
      exact ⟨hrest, hP.2⟩
    · rw [if_neg hv]
      constructor
      · intro e he
        rcases webProcess_queue_mem cfg env _ u d e he with he | ⟨hd, html, hpage, hm, hdep⟩
        · exact hrest e he
        · constructor
          · rw [hdep]; omega
          · rw [hdep]
            exact Reach.step u d html e.1 hhead.2 hpage hm
      · intro x hx
        rcases webProcess_fetched_mem cfg env _ u d x hx with hx | hx
        · exact hP.2 x hx
        · subst hx
          exact ⟨d, hhead.1, hhead.2⟩

/-- C4 (depth bound): in both crawlers outbound links are expanded only when
the fetched page's depth is strictly below `maxDepth` and enter the queue at
`depth + 1`, seeds enter at depth 0; hence every identity that is fetched is
reachable from some seed by a link path of length at most `maxDepth`. -/
theorem C4_depth_bound :
    (∀ fuel cfg env doneLines errLines t,
      t ∈ (Wiki.wikiRun fuel cfg env doneLines errLines).1.fetched →
        ∃ d, d ≤ cfg.maxDepth ∧ Wiki.Reach env t d) ∧
    (∀ fuel seeds cfg env doneLines u,
      u ∈ (Web.webRun fuel seeds cfg env doneLines).1.fetched →
        ∃ d, d ≤ cfg.maxDepth ∧ Web.Reach env seeds u d) := by
  constructor
  · intro fuel cfg env doneLines errLines t ht
    have key := Wiki.wikiDepthInv cfg env (Crawl.loadDone doneLines) fuel
      (Wiki.wikiInitState doneLines errLines) ⟨?_, ?_⟩
    · exact key.2 t ht
    · intro e he
      simp only [Wiki.wikiInitState, List.mem_map] at he
      obtain ⟨x, hx, hxe⟩ := he
      rw [← hxe]
      exact ⟨Nat.zero_le _, Wiki.Reach.seed x hx⟩
    · intro x hx
      exact absurd hx (List.not_mem_nil x)
  · intro fuel seeds cfg env doneLines u hu
    have key := Web.webDepthInv cfg env seeds fuel
      (Web.webInitState seeds doneLines) ⟨?_, ?_⟩
    · exact key.2 u hu
    · intro e he
      simp only [Web.webInitState, List.mem_map] at he
      obtain ⟨x, hx, hxe⟩ := he
      rw [← hxe]
      exact ⟨Nat.zero_le _, Web.Reach.seed x hx⟩
    · intro x hx
      exact absurd hx (List.not_mem_nil x)

/-- Consecutive fetch starts (most recent first) are at least `delay` apart. -/
def Crawl.gapsOKb (delay : Nat) : List Nat → Bool
  | b :: a :: t => decide (a + delay ≤ b) && Crawl.gapsOKb delay (a :: t)
  | _ => true

/-- `wikiBody` on a fresh head entry is `wikiProcess`. -/
theorem Wiki.wikiBody_process (cfg : WikiCfg) (env : WikiEnv) (s : WikiState)
    (t : String) (d : Nat) (rest : List (String × Nat))
    (hq : s.queue = (t, d) :: rest) (hv : t ∉ s.visited) :
    wikiBody cfg env s = wikiProcess cfg env { s with queue := rest } t d := by
  unfold wikiBody
  split
  · rename_i hnil
    rw [hq] at hnil
    cases hnil
  · rename_i t' d' rest' hq'
    rw [hq] at hq'
    injection hq' with h1 h2
    injection h1 with ht hd
    subst ht
    subst hd
    subst h2
    rw [if_neg hv]

/-- `webBody` on a fresh head entry is `webProcess`. -/
theorem Web.webBody_process (cfg : WebCfg) (env : WebEnv) (s : WebState)
    (u : String) (d : Nat) (rest : List (String × Nat))
    (hq : s.queue = (u, d) :: rest) (hv : u ∉ s.visited) :
    webBody cfg env s = webProcess cfg env { s with queue := rest } u d := by
  unfold webBody
  split
  · rename_i hnil
    rw [hq] at hnil
    cases hnil
  · rename_i u' d' rest' hq'
    rw [hq] at hq'
    injection hq' with h1 h2
    injection h1 with hu hd
    subst hu
    subst hd
    subst h2
    rw [if_neg hv]

/-- Politeness invariant for the wiki loop: the recorded fetch-start times
keep gaps of at least `delay`, and the clock is at least `delay` past the
most recent start. -/
theorem Wiki.wikiTimeInv (cfg : WikiCfg) (env : WikiEnv) (done0 : List String)
    (fuel : Nat) (s : WikiState)
    (h : Crawl.gapsOKb cfg.delay s.fetchStarts = true ∧
      (∀ x, s.fetchStarts.head? = some x → x + cfg.delay ≤ s.clock)) :
    Crawl.gapsOKb cfg.delay (wikiLoop cfg env done0 fuel s).1.fetchStarts = true ∧
      (∀ x, (wikiLoop cfg env done0 fuel s).1.fetchStarts.head? = some x →
        x + cfg.delay ≤ (wikiLoop cfg env done0 fuel s).1.clock) := by
  apply wikiLoopInv cfg env done0
    (fun s => Crawl.gapsOKb cfg.delay s.fetchStarts = true ∧
      (∀ x, s.fetchStarts.head? = some x → x + cfg.delay ≤ s.clock))
    ?_ fuel s h
  intro s hc hP
  unfold wikiBody
  split
  · exact hP
  · rename_i t d rest hq
    by_cases hv : t ∈ s.visited
    · rw [if_pos hv]
      exact hP
    · rw [if_neg hv]
      constructor
      · rw [wikiProcess_fetchStarts]
        show Crawl.gapsOKb cfg.delay (s.clock :: s.fetchStarts) = true
        cases hfs : s.fetchStarts with
        | nil => rfl
        | cons a tl =>
          have ha : a + cfg.delay ≤ s.clock := hP.2 a (by rw [hfs]; rfl)
          have hg : Crawl.gapsOKb cfg.delay (a :: tl) = true := by
            rw [← hfs]; exact hP.1
          simp [Crawl.gapsOKb, ha, hg]
      · intro x hx
        rw [wikiProcess_fetchStarts] at hx
        rw [wikiProcess_clock]
        have hxe : s.clock = x := by simpa using hx
        show x + cfg.delay ≤ s.clock + env.dur s.fetchStarts.length + cfg.delay
        omega

/-- Politeness invariant for the web loop. -/
theorem Web.webTimeInv (cfg : WebCfg) (env : WebEnv)
    (fuel : Nat) (s : WebState)
    (h : Crawl.gapsOKb cfg.delay s.fetchStarts = true ∧
      (∀ x, s.fetchStarts.head? = some x → x + cfg.delay ≤ s.clock)) :
    Crawl.gapsOKb cfg.delay (webLoop cfg env fuel s).1.fetchStarts = true ∧
      (∀ x, (webLoop cfg env fuel s).1.fetchStarts.head? = some x →
        x + cfg.delay ≤ (webLoop cfg env fuel s).1.clock) := by
  apply webLoopInv cfg env
    (fun s => Crawl.gapsOKb cfg.delay s.fetchStarts = true ∧
      (∀ x, s.fetchStarts.head? = some x → x + cfg.delay ≤ s.clock))
    ?_ fuel s h
  intro s hc hP
  unfold webBody
  split
  · exact hP
  · rename_i u d rest hq
    by_cases hv : u ∈ s.visited
    · rw [if_pos hv]
      exact hP
    · rw [if_neg hv]
      rcases webProcess_fetchStarts cfg env { s with queue := rest } u d with hfs | hfs
      · constructor
        · rw [hfs]
          exact hP.1
        · intro x hx
          rw [hfs] at hx
          rw [webProcess_clock]
          have := hP.2 x hx
          show x + cfg.delay ≤ s.clock + env.dur s.fetchStarts.length + cfg.delay
          omega
      · constructor
        · rw [hfs]
          show Crawl.gapsOKb cfg.delay (s.clock :: s.fetchStarts) = true
          cases hl : s.fetchStarts with
          | nil => rfl
          | cons a tl =>
            have ha : a + cfg.delay ≤ s.clock := hP.2 a (by rw [hl]; rfl)
            have hg : Crawl.gapsOKb cfg.delay (a :: tl) = true := by
              rw [← hl]; exact hP.1
            simp [Crawl.gapsOKb, ha, hg]
        · intro x hx
          rw [hfs] at hx
          rw [webProcess_clock]
          have hxe : s.clock = x := by simpa using hx
          show x + cfg.delay ≤ s.clock + env.dur s.fetchStarts.length + cfg.delay
          omega

/-- C8 (politeness floor): in both crawlers every popped entry that reaches
the fetch step ends with the `finally` sleep, regardless of outcome, so the
clock advances by at least `delay` across the iteration and the recorded
start times of consecutive fetch attempts are at least `delay` apart. -/
theorem C8_politeness_floor :
    (∀ fuel cfg env doneLines errLines,
      Crawl.gapsOKb cfg.delay
        (Wiki.wikiRun fuel cfg env doneLines errLines).1.fetchStarts = true) ∧
    (∀ fuel seeds cfg env doneLines,
      Crawl.gapsOKb cfg.delay
        (Web.webRun fuel seeds cfg env doneLines).1.fetchStarts = true) ∧
    (∀ cfg env s t d rest, s.queue = (t, d) :: rest → t ∉ s.visited →
      s.clock + cfg.delay ≤ (Wiki.wikiBody cfg env s).clock) ∧
    (∀ cfg env s u d rest, s.queue = (u, d) :: rest → u ∉ s.visited →
      s.clock + cfg.delay ≤ (Web.webBody cfg env s).clock) := by
  refine ⟨?_, ?_, ?_, ?_⟩
  · intro fuel cfg env doneLines errLines
    exact (Wiki.wikiTimeInv cfg env (Crawl.loadDone doneLines) fuel
      (Wiki.wikiInitState doneLines errLines)
      ⟨rfl, fun x hx => by cases hx⟩).1
  · intro fuel seeds cfg env doneLines
    exact (Web.webTimeInv cfg env fuel (Web.webInitState seeds doneLines)
      ⟨rfl, fun x hx => by cases hx⟩).1
  · intro cfg env s t d rest hq hv
    rw [Wiki.wikiBody_process cfg env s t d rest hq hv,
      Wiki.wikiProcess_clock]
    show s.clock + cfg.delay ≤ s.clock + env.dur s.fetchStarts.length + cfg.delay
    omega
  · intro cfg env s u d rest hq hv
    rw [Web.webBody_process cfg env s u d rest hq hv,
      Web.webProcess_clock]
    show s.clock + cfg.delay ≤ s.clock + env.dur s.fetchStarts.length + cfg.delay
    omega

/-- A wiki network oracle where every request succeeds with status 200 and
link pagination raises. -/
def Wiki.envOkNoLinks : Wiki.WikiEnv :=
  ⟨fun _ => .resp 200 "body", fun _ => .resp 200 "t" "e" "c" "th",
   fun _ => .error (), fun _ => 0⟩

/-- A shallow wiki configuration (`maxDepth = 0`, `maxPages = 5`,
`delay = 2`, extract mode). -/
def Wiki.cfgShallow : Wiki.WikiCfg := ⟨0, 5, 2, false, .extract⟩

/-- A web network oracle where robots allow everything and pages fetch
successfully with no outbound links. -/
def Web.envOk : Web.WebEnv :=
  ⟨fun _ => .ok 200 (fun _ => true), fun _ => .ok "h", fun _ => [],
   fun _ _ => none, fun _ => 0⟩

/-- A shallow web configuration. -/
def Web.cfgShallow : Web.WebCfg := ⟨0, 5, 2⟩

/-- A concrete seed URL. -/
def Web.seed0 : String := "http://a/bongda"

/-- Witness for C4: the first fetched identity of a concrete one-iteration
run of each crawler is reachable within `maxDepth` of a seed. -/
theorem C4_depth_bound_witness :
    (∃ d, d ≤ Wiki.cfgShallow.maxDepth ∧
      Wiki.Reach Wiki.envOkNoLinks "Đội tuyển bóng đá quốc gia Việt Nam" d) ∧
    (∃ d, d ≤ Web.cfgShallow.maxDepth ∧
      Web.Reach Web.envOk [Web.seed0] Web.seed0 d) := by
  constructor
  · exact C4_depth_bound.1 1 Wiki.cfgShallow Wiki.envOkNoLinks [] []
      "Đội tuyển bóng đá quốc gia Việt Nam" (by decide)
  · exact C4_depth_bound.2 1 [Web.seed0] Web.cfgShallow Web.envOk []
      Web.seed0 (by decide)

/-- A wiki state holding exactly one fresh frontier entry. -/
def Wiki.stateOne : Wiki.WikiState := ⟨[("T", 0)], [], [], [], [], [], [], [], 0⟩

/-- A web state holding exactly one fresh frontier entry. -/
def Web.stateOne : Web.WebState := ⟨[("U", 0)], [], 0, [], [], [], [], [], [], 0⟩

/-- Witness for C8: a concrete processed frontier entry advances the clock
by at least the configured delay in both crawlers. -/
theorem C8_politeness_floor_witness :
    (Wiki.stateOne.clock + Wiki.cfgShallow.delay ≤
      (Wiki.wikiBody Wiki.cfgShallow Wiki.envOkNoLinks Wiki.stateOne).clock) ∧
    (Web.stateOne.clock + Web.cfgShallow.delay ≤
      (Web.webBody Web.cfgShallow Web.envOk Web.stateOne).clock) := by
  constructor
  · exact C8_politeness_floor.2.2.1 Wiki.cfgShallow Wiki.envOkNoLinks
      Wiki.stateOne "T" 0 [] rfl (by decide)
  · exact C8_politeness_floor.2.2.2 Web.cfgShallow Web.envOk
      Web.stateOne "U" 0 [] rfl (by decide)

/-- The web loop's success counter never exceeds `maxPages`. -/
theorem Web.body_results_le (cfg : WebCfg) (env : WebEnv) (s : WebState) :
    (webBody cfg env s).results ≤ s.results + 1 := by
  unfold webBody
  split
  · omega
  · rename_i u d rest hq
    by_cases hv : u ∈ s.visited
    · rw [if_pos hv]
      show s.results ≤ s.results + 1
      omega
    · rw [if_neg hv]
      exact webProcess_results_le cfg env _ u d

/-- Success-counter bound invariant for the web loop. -/
theorem Web.resultsInv (cfg : WebCfg) (env : WebEnv) (fuel : Nat) (s : WebState)
    (h : s.results ≤ cfg.maxPages) :
    (webLoop cfg env fuel s).1.results ≤ cfg.maxPages := by
  apply webLoopInv cfg env (fun s => s.results ≤ cfg.maxPages) ?_ fuel s h
  intro s hc hP
  have hlt : s.results < cfg.maxPages := by
    unfold webCond at hc
    simp only [Bool.and_eq_true, decide_eq_true_eq] at hc
    exact hc.2
  have := body_results_le cfg env s
  omega

/-- A web network oracle generating an inexhaustible on-topic link graph:
every fetched page links to one fresh football URL. -/
def Web.envGrow : Web.WebEnv :=
  ⟨fun _ => .ok 200 (fun _ => true), fun u => .ok u,
   fun h => [h ++ "/bongda"], fun _ l => some l, fun _ => 0⟩

/-- Counterexample to C2 as stated: a wiki run whose done ledger already
holds two identities, with `maxPages = 3` and fetches that always succeed,
terminates normally after recording only ONE success in the current run,
with the frontier still nonempty — the wiki loop counts the startup done-set
toward the cap, not only current-run successes. -/
theorem C2_cap_enforcement_counterexample :
    (Wiki.wikiRun 30 ⟨3, 3, 0, false, .extract⟩ Wiki.envOkNoLinks
      ["A", "B"] []).2 = true ∧
    (Wiki.wikiRun 30 ⟨3, 3, 0, false, .extract⟩ Wiki.envOkNoLinks
      ["A", "B"] []).1.results.length = 1 ∧
    (Wiki.wikiRun 30 ⟨3, 3, 0, false, .extract⟩ Wiki.envOkNoLinks
      ["A", "B"] []).1.queue ≠ [] := by
  refine ⟨by decide, by decide, by decide⟩

/-- C2 amended: the WEB run terminates exactly when the queue empties or
`maxPages` current-run successes are recorded (and with `maxPages = 3` and
an inexhaustible link graph it writes exactly 3 artifacts and stops with a
nonempty frontier); the WIKI run instead stops as soon as current-run
successes PLUS the number of distinct startup done-ledger entries reach
`maxPages`. -/
theorem C2_cap_enforcement_amended :
    (∀ fuel seeds cfg env doneLines,
      (Web.webRun fuel seeds cfg env doneLines).2 = false ∨
      (Web.webRun fuel seeds cfg env doneLines).1.queue = [] ∨
      (Web.webRun fuel seeds cfg env doneLines).1.results = cfg.maxPages) ∧
    (∀ fuel cfg env doneLines errLines,
      (Wiki.wikiRun fuel cfg env doneLines errLines).2 = false ∨
      (Wiki.wikiRun fuel cfg env doneLines errLines).1.queue = [] ∨
      cfg.maxPages ≤ (Wiki.wikiRun fuel cfg env doneLines errLines).1.results.length
        + (Crawl.loadDone doneLines).length) ∧
    ((Web.webRun 20 [Web.seed0] ⟨5, 3, 0⟩ Web.envGrow []).1.results = 3 ∧
      (Web.webRun 20 [Web.seed0] ⟨5, 3, 0⟩ Web.envGrow []).2 = true ∧
      (Web.webRun 20 [Web.seed0] ⟨5, 3, 0⟩ Web.envGrow []).1.queue ≠ []) := by
  refine ⟨?_, ?_, by decide, by decide, by decide⟩
  · intro fuel seeds cfg env doneLines
    by_cases hfin : (Web.webRun fuel seeds cfg env doneLines).2 = true
    · have hcond := Web.webLoopFin cfg env fuel (Web.webInitState seeds doneLines) hfin
      have hle := Web.resultsInv cfg env fuel (Web.webInitState seeds doneLines)
        (Nat.zero_le _)
      unfold Web.webCond at hcond
      simp only [Bool.and_eq_false_iff, Bool.not_eq_false', decide_eq_false_iff_not,
        not_lt] at hcond
      rcases hcond with hq | hge
      · exact Or.inr (Or.inl (by simpa [List.isEmpty_iff] using hq))
      · exact Or.inr (Or.inr (Nat.le_antisymm hle hge))
    · exact Or.inl (by simpa using hfin)
  · intro fuel cfg env doneLines errLines
    by_cases hfin : (Wiki.wikiRun fuel cfg env doneLines errLines).2 = true
    · have hcond := Wiki.wikiLoopFin cfg env (Crawl.loadDone doneLines) fuel
        (Wiki.wikiInitState doneLines errLines) hfin
      unfold Wiki.wikiCond at hcond
      simp only [Bool.and_eq_false_iff, Bool.not_eq_false', decide_eq_false_iff_not,
        not_lt] at hcond
      rcases hcond with hq | hge
      · exact Or.inr (Or.inl (by simpa [List.isEmpty_iff] using hq))
      · exact Or.inr (Or.inr hge)
    · exact Or.inl (by simpa using hfin)

/-- C5 (policy fail-open): on a cache miss for the URL's origin, an HTTP
error status (`>= 400`) from the robots endpoint fails open with the status
recorded in the reason; any transport/parse exception fails open with a
`robots_read_failed` reason; and a denial can only arise from a successfully
parsed ruleset (fetched with a status `< 400`) rejecting the URL.  The
function is total, so no failure is ever raised to the caller. -/
theorem C5_policy_fail_open (fetchRobots : String → Web.RobotsOutcome)
    (url : String) (cache : Web.RpCache)
    (hmiss : (cache.lookup (Web.robotsUrlOf url) : Option (Option Web.Ruleset)) = none) :
    (∀ s rules, fetchRobots (Web.robotsUrlOf url) = .ok s rules → 400 ≤ s →
      (Web.allowed_by_robots fetchRobots url cache).1
        = (true, "robots_http_" ++ toString s ++ ":" ++ Web.robotsUrlOf url)) ∧
    (fetchRobots (Web.robotsUrlOf url) = .exc →
      (Web.allowed_by_robots fetchRobots url cache).1
        = (true, "robots_read_failed:" ++ Web.robotsUrlOf url)) ∧
    (∀ b r, (Web.allowed_by_robots fetchRobots url cache).1 = (b, r) →
      b = false →
      ∃ s rules, fetchRobots (Web.robotsUrlOf url) = .ok s rules ∧ s < 400 ∧
        rules url = false ∧ r = "robots_disallow") := by
  refine ⟨?_, ?_, ?_⟩
  · intro s rules hfr hs
    unfold Web.allowed_by_robots
    simp only [hmiss, hfr, if_pos hs]
  · intro hfr
    unfold Web.allowed_by_robots
    simp only [hmiss, hfr]
  · intro b r hres hb
    subst hb
    unfold Web.allowed_by_robots at hres
    simp only [hmiss] at hres
    cases hfr : fetchRobots (Web.robotsUrlOf url) with
    | exc =>
      simp only [hfr, Prod.mk.injEq] at hres
      exact absurd hres.1 (by decide)
    | ok s rules =>
      simp only [hfr] at hres
      by_cases hs : 400 ≤ s
      · simp only [if_pos hs, Prod.mk.injEq] at hres
        exact absurd hres.1 (by decide)
      · simp only [if_neg hs] at hres
        by_cases hcan : rules url = true
        · simp only [hcan, if_true, Prod.mk.injEq] at hres
          exact absurd hres.1 (by decide)
        · simp only [if_neg hcan, Prod.mk.injEq] at hres
          exact ⟨s, rules, rfl, by omega, by simpa using hcan, hres.2.symm⟩

/-- Witness for C5: a stubbed robots endpoint answering HTTP 500 yields
`allowed = true` with the status in the diagnostic reason. -/
theorem C5_policy_fail_open_witness :
    (Web.allowed_by_robots (fun _ => Web.RobotsOutcome.ok 500 (fun _ => true))
      "http://x/a" []).1
    = (true, "robots_http_" ++ toString 500 ++ ":"
        ++ Web.robotsUrlOf "http://x/a") :=
  (C5_policy_fail_open (fun _ => Web.RobotsOutcome.ok 500 (fun _ => true))
    "http://x/a" [] rfl).1 500 (fun _ => true) rfl (by omega)

/-- Counterexample to C6 as stated: against an upstream that always answers
HTTP 429, the `fetch_links` pagination loop is still retrying after 100
requests — far beyond the wiki session's retry budget of 5 — and never
surfaces a failure, because the application-level `while True` loop retries
403/429 unconditionally. -/
theorem C6_bounded_retry_counterexample :
    Wiki.fetch_links Wiki.always429 100 = .diverged ∧ 100 > 5 + 1 := by
  constructor
  · simpa [Wiki.fetch_links] using Wiki.fetchLinksGo_always429 100 0 []
  · decide

/-- C6 amended: the session-level `Retry` adapters retry forcelisted
statuses at most 3 times (web) and 5 times (wiki) — at most 4 resp. 6
requests per logical GET — before surfacing the final outcome; but the
paginated outbound-link fetch additionally retries 403/429 at application
level without bound, so on persistent throttling it never terminates. -/
theorem C6_bounded_retry_amended :
    (∀ (statuses : Nat → Nat) (n : Nat),
      Crawl.sessionAttempts Web.RETRYABLE_STATUS statuses 3 n ≤ 4) ∧
    (∀ (statuses : Nat → Nat) (n : Nat),
      Crawl.sessionAttempts Wiki.RETRYABLE_STATUS statuses 5 n ≤ 6) ∧
    (∀ fuel, Wiki.fetch_links Wiki.always429 fuel = .diverged) := by
  refine ⟨?_, ?_, ?_⟩
  · intro st n
    exact Crawl.sessionAttempts_le Web.RETRYABLE_STATUS st 3 n
  · intro st n
    exact Crawl.sessionAttempts_le Wiki.RETRYABLE_STATUS st 5 n
  · intro fuel
    simpa [Wiki.fetch_links] using Wiki.fetchLinksGo_always429 fuel 0 []

/-- On a fetch failure, `wikiProcess` appends exactly the classified error
line. -/
theorem Wiki.wikiProcess_errorLog_err (cfg : WikiCfg) (env : WikiEnv)
    (s : WikiState) (t : String) (d : Nat) (f : FetchFailure)
    (hf : fetch_page env t cfg.full cfg.mode = .error f) :
    (wikiProcess cfg env s t d).errorLog
      = s.errorLog ++ [(t, (classifyFailure f).1, (classifyFailure f).2)] := by
  unfold wikiProcess
  simp only [hf]

/-- On a fetch success, `wikiProcess` appends the title to the done log. -/
theorem Wiki.wikiProcess_doneLog_ok (cfg : WikiCfg) (env : WikiEnv)
    (s : WikiState) (t : String) (d : Nat) (v : WikiData × Nat)
    (hf : fetch_page env t cfg.full cfg.mode = .ok v) :
    (wikiProcess cfg env s t d).doneLog = s.doneLog ++ [t] := by
  unfold wikiProcess
  simp only [hf, wikiExpand_doneLog]

/-- On a fetch success, `wikiProcess` appends the title to the results. -/
theorem Wiki.wikiProcess_results_ok (cfg : WikiCfg) (env : WikiEnv)
    (s : WikiState) (t : String) (d : Nat) (v : WikiData × Nat)
    (hf : fetch_page env t cfg.full cfg.mode = .ok v) :
    (wikiProcess cfg env s t d).results = s.results ++ [t] := by
  unfold wikiProcess
  simp only [hf, wikiExpand_results]

/-- C7 (failure classification): an HTTP failure carrying status `s` is
logged with that status and `retryable` iff `s` lies in the transient set
(in particular the permanent statuses 400/401/404/410 and any unknown
status are logged non-retryable), a statusless exception is logged
`(0, retryable)`, and the loop body appends exactly this classification to
the error ledger whenever a fetch fails. -/
theorem C7_failure_classification :
    (∀ s : Nat, Wiki.classifyFailure (.httpError (some s))
        = (s, Wiki.RETRYABLE_STATUS.contains s)) ∧
    (Wiki.PERMANENT_STATUS.all
      (fun s => !(Wiki.classifyFailure (.httpError (some s))).2) = true) ∧
    (∀ s : Nat, s ∉ Wiki.RETRYABLE_STATUS →
      (Wiki.classifyFailure (.httpError (some s))).2 = false) ∧
    (Wiki.classifyFailure .otherExc = (0, true)) ∧
    (∀ cfg env s t d rest f,
      s.queue = (t, d) :: rest → t ∉ s.visited →
      Wiki.fetch_page env t cfg.full cfg.mode = .error f →
      (Wiki.wikiBody cfg env s).errorLog = s.errorLog
        ++ [(t, (Wiki.classifyFailure f).1, (Wiki.classifyFailure f).2)]) := by
  refine ⟨fun s => rfl, by decide, ?_, rfl, ?_⟩
  · intro s hs
    show Wiki.RETRYABLE_STATUS.contains s = false
    simpa using hs
  · intro cfg env s t d rest f hq hv hf
    rw [Wiki.wikiBody_process cfg env s t d rest hq hv,
      Wiki.wikiProcess_errorLog_err cfg env _ t d f hf]

/-- A wiki oracle whose main request always returns HTTP 404. -/
def Wiki.env404 : Wiki.WikiEnv :=
  ⟨fun _ => .resp 404 "b", fun _ => .resp 200 "t" "e" "c" "th",
   fun _ => .error (), fun _ => 0⟩

/-- Witness for C7: a concrete 404 fetch is logged `(404, retryable=false)`
by the loop body. -/
theorem C7_failure_classification_witness :
    (Wiki.wikiBody Wiki.cfgShallow Wiki.env404 Wiki.stateOne).errorLog
      = Wiki.stateOne.errorLog ++ [("T", 404, false)] := by
  have h := C7_failure_classification.2.2.2.2 Wiki.cfgShallow Wiki.env404
    Wiki.stateOne "T" 0 [] (.httpError (some 404)) rfl (by decide) rfl
  simpa using h

/-- A wiki oracle whose main request returns 403 and whose REST summary
fallback returns 500. -/
def Wiki.envFallback500 : Wiki.WikiEnv :=
  ⟨fun _ => .resp 403 "b", fun _ => .resp 500 "t" "e" "c" "th",
   fun _ => .error (), fun _ => 0⟩

/-- Counterexample to C9 as stated: when the main request returns 403 but
the REST summary fallback itself returns an error status, `fetch_page` DOES
fail (its `r2.raise_for_status()` raises), so "for every title whose main
request returns 403/429 fetch_page does not fail" is false. -/
theorem C9_fallback_counterexample :
    Wiki.fetch_page Wiki.envFallback500 "T" false .extract
      = .error (.httpError (some 500)) := rfl

/-- C9 amended: in extract mode, when the main request returns 403 or 429
AND the REST summary request succeeds (status `< 400`, no exception),
`fetch_page` silently returns a success carrying only the summary fields
paired with the ORIGINAL 403/429 status, and the loop body then appends the
title to the done ledger and to the results exactly as for a full success. -/
theorem C9_fallback_amended (env : Wiki.WikiEnv) (t : String) (full : Bool)
    (s st : Nat) (body ti ex cu th : String)
    (hmain : env.main t = .resp s body) (hs : s = 403 ∨ s = 429)
    (hrest : env.rest t = .resp st ti ex cu th) (hst : st < 400) :
    Wiki.fetch_page env t full .extract
      = .ok (.extractSummary ti ex cu th, s) ∧
    (∀ cfg srun d rest',
      srun.queue = (t, d) :: rest' → t ∉ srun.visited →
      cfg.full = full → cfg.mode = .extract →
      (Wiki.wikiBody cfg env srun).doneLog = srun.doneLog ++ [t] ∧
      (Wiki.wikiBody cfg env srun).results = srun.results ++ [t]) := by
  have hfp : Wiki.fetch_page env t full .extract
      = .ok (.extractSummary ti ex cu th, s) := by
    unfold Wiki.fetch_page
    simp only [hmain, if_pos hs, hrest,
      if_neg (by omega : ¬ (400 ≤ st ∧ st < 600))]
  refine ⟨hfp, ?_⟩
  intro cfg srun d rest' hq hv hfull hmode
  have hfp' : Wiki.fetch_page env t cfg.full cfg.mode
      = .ok (.extractSummary ti ex cu th, s) := by
    rw [hfull, hmode]
    exact hfp
  rw [Wiki.wikiBody_process cfg env srun t d rest' hq hv]
  constructor
  · exact Wiki.wikiProcess_doneLog_ok cfg env _ t d _ hfp'
  · exact Wiki.wikiProcess_results_ok cfg env _ t d _ hfp'

/-- A wiki oracle whose main request returns 403 and whose REST summary
fallback succeeds. -/
def Wiki.envFallbackOK : Wiki.WikiEnv :=
  ⟨fun _ => .resp 403 "b", fun _ => .resp 200 "t" "e" "c" "th",
   fun _ => .error (), fun _ => 0⟩

/-- Witness for the amended C9 at a concrete oracle and state. -/
theorem C9_fallback_amended_witness :
    Wiki.fetch_page Wiki.envFallbackOK "T" false .extract
      = .ok (.extractSummary "t" "e" "c" "th", 403) ∧
    (Wiki.wikiBody Wiki.cfgShallow Wiki.envFallbackOK Wiki.stateOne).doneLog
      = Wiki.stateOne.doneLog ++ ["T"] := by
  have h := C9_fallback_amended Wiki.envFallbackOK "T" false 403 200
    "b" "t" "e" "c" "th" rfl (Or.inl rfl) rfl (by omega)
  exact ⟨h.1, (h.2 Wiki.cfgShallow Wiki.stateOne 0 [] rfl (by decide) rfl rfl).1⟩

/-- Every member of an `extract_links` result has a scheme starting with
`"http"` and carries no fragment. -/
theorem Web.extract_links_good (uj : String → String → Option String)
    (url : String) (hrefs : List String) (u : String)
    (hu : u ∈ Web.extract_links uj url hrefs) :
    Crawl.pyStartsWith (Crawl.urlScheme u) "http" = true ∧ '#' ∉ u.data := by
  unfold Web.extract_links at hu
  simp only [List.mem_filter, List.mem_map, Bool.and_eq_true,
    Bool.not_eq_true', beq_eq_false_iff_ne] at hu
  obtain ⟨⟨h, hh, hnu⟩, hne, hfb⟩ := hu
  unfold Web.normalize_url at hnu
  cases hju : uj url h with
  | none =>
    simp only [hju] at hnu
    exact absurd hnu.symm hne
  | some u' =>
    simp only [hju] at hnu
    by_cases hsw : Crawl.pyStartsWith (Crawl.urlScheme u') "http" = true
    · simp only [if_pos hsw] at hnu
      subst hnu
      have hne' : Crawl.urlScheme u' ≠ "" := by
        intro he
        rw [he] at hsw
        exact absurd hsw (by decide)
      constructor
      · rw [Crawl.urlScheme_stripFrag u' hne']
        exact hsw
      · exact Crawl.stripFrag_no_hash u'
    · simp only [if_neg hsw] at hnu
      exact absurd hnu.symm hne

/-- C10 (normalize_url totality): `normalize_url` returns either the empty
string or the joined URL with its fragment stripped when the joined URL's
scheme starts with `"http"`; `extract_links` discards the empty results, so
every URL appended to the web frontier by link expansion has an http(s)
scheme and contains no fragment, in every run. -/
theorem C10_normalize_url_total :
    (∀ uj (base link : String),
      Web.normalize_url uj base link = "" ∨
      ∃ u, uj base link = some u ∧
        Crawl.pyStartsWith (Crawl.urlScheme u) "http" = true ∧
        Web.normalize_url uj base link = Crawl.stripFrag u) ∧
    (∀ fuel seeds cfg env doneLines,
      ((Web.webRun fuel seeds cfg env doneLines).1.pushedLog).all
        (fun u => Crawl.pyStartsWith (Crawl.urlScheme u) "http"
          && !(decide ('#' ∈ u.data))) = true) := by
  constructor
  · intro uj base link
    unfold Web.normalize_url
    cases hju : uj base link with
    | none => exact Or.inl rfl
    | some u =>
      by_cases hsw : Crawl.pyStartsWith (Crawl.urlScheme u) "http" = true
      · right
        exact ⟨u, rfl, hsw, by simp only [if_pos hsw]⟩
      · left
        simp only [if_neg hsw]
  · intro fuel seeds cfg env doneLines
    have key : ∀ u ∈ (Web.webRun fuel seeds cfg env doneLines).1.pushedLog,
        Crawl.pyStartsWith (Crawl.urlScheme u) "http" = true ∧ '#' ∉ u.data := by
      apply Web.webLoopInv cfg env
        (fun s => ∀ u ∈ s.pushedLog,
          Crawl.pyStartsWith (Crawl.urlScheme u) "http" = true ∧ '#' ∉ u.data)
        ?_ fuel (Web.webInitState seeds doneLines)
        (fun u hu => absurd hu (List.not_mem_nil u))
      intro s hc hP
      unfold Web.webBody
      split
      · exact hP
      · rename_i u d rest hq
        by_cases hv : u ∈ s.visited
        · rw [if_pos hv]
          exact hP
        · rw [if_neg hv]
          intro x hx
          rcases Web.webProcess_pushedLog_mem cfg env _ u d x hx with hx | ⟨html, hpage, hx⟩
          · exact hP x hx
          · exact Web.extract_links_good env.uj u (env.hrefsOf html) x hx
    rw [List.all_eq_true]
    intro u hu
    have := key u hu
    simp [this.1, this.2]
